import Mathlib

/-!
Verification of the Scrappers player samples.

A shallow embedding of the state-synchronization and decision pipeline shared
by the three sample players (`00-reckless-abandon.go`, `01-danger-noodle.go`
and the unnamed third variant), together with proofs and refutations of the
specified properties.

Go `int` values are modelled as `Int` (no arithmetic in the store operations
can overflow in the scenarios considered, and the embedded code performs no
wrap-around-sensitive arithmetic). Go slices are modelled as `List`.
-/

namespace Scrappers

/-- The `MaxHealth` constant, identical in all three variants. -/
def MaxHealth : Int := 12

/-- Structure `BotMsg` is used to unmarshal a BOT representation sent from the game.
Fields beyond PID/BID/X/Y/Health are telemetry the core never reads, but they
are kept to mirror the wire shape. -/
structure BotMsg where
  PID : Int
  BID : Int
  X : Int
  Y : Int
  Health : Int
  Fired : Bool := false
  HitX : Int := 0
  HitY : Int := 0
  Scrap : Int := 0
  Shield : Bool := false
deriving DecidableEq, Repr

/-- Structure `ReadyMsg` is used to unmarshal the READY message sent from the game. -/
structure ReadyMsg where
  PID : Int
  Bots : List BotMsg
deriving DecidableEq, Repr

/-- Structure `GDBBot` is the Bot struct for the Game Database. -/
structure GDBBot where
  BID : Int
  PID : Int
  X : Int
  Y : Int
  Health : Int
deriving DecidableEq, Repr

/-- Structure `GameDatabase` stores all the data sent to us by the game. -/
structure GameDatabase where
  Bots : List GDBBot
  PID : Int
deriving DecidableEq, Repr

/-- The identity test used by both loops of `InsertUpdateBot`:
`gdb.Bots[i].BID == b.BID && gdb.Bots[i].PID == b.PID`. -/
def matchKey (x : GDBBot) (b : BotMsg) : Bool :=
  x.BID == b.BID && x.PID == b.PID

/-- The dead-bot branch of `InsertUpdateBot`: scan from the front, remove the
first entry whose (BID, PID) matches, then return. -/
def removeFirst (bots : List GDBBot) (b : BotMsg) : List GDBBot :=
  match bots with
  | [] => []
  | x :: xs => if matchKey x b then xs else x :: removeFirst xs b

/-- The update loop of `InsertUpdateBot`: find the first entry whose
(BID, PID) matches and overwrite its X, Y and Health fields in place;
`none` when no entry matches. -/
def updateFirst (bots : List GDBBot) (b : BotMsg) : Option (List GDBBot) :=
  match bots with
  | [] => none
  | x :: xs =>
      if matchKey x b then
        some ({ x with X := b.X, Y := b.Y, Health := b.Health } :: xs)
      else
        (updateFirst xs b).map (x :: ·)

/-- The add branch of `InsertUpdateBot`: build a fresh `GDBBot` from the
message's identity, position and health. -/
def mkGDBBot (b : BotMsg) : GDBBot :=
  { PID := b.PID, BID := b.BID, X := b.X, Y := b.Y, Health := b.Health }

/-- The effect of `InsertUpdateBot` on the bot slice: health ≤ 0 removes the
first matching entry (no-op when absent); otherwise the first matching entry
is updated in place, and when none matches a fresh entry is appended. -/
def insertUpdateBots (bots : List GDBBot) (b : BotMsg) : List GDBBot :=
  if b.Health ≤ 0 then
    removeFirst bots b
  else
    match updateFirst bots b with
    | some updated => updated
    | none => bots ++ [mkGDBBot b]

/-- Method `InsertUpdateBot` either updates a bot's info, deletes a dead bot, or adds
a new bot. The method never writes the `PID` field of the database. -/
def GameDatabase.InsertUpdateBot (gdb : GameDatabase) (b : BotMsg) : GameDatabase :=
  { gdb with Bots := insertUpdateBots gdb.Bots b }

/-- Method `MyBots` returns the GDBBots owned by us (`bot.PID == gdb.PID`). -/
def GameDatabase.MyBots (gdb : GameDatabase) : List GDBBot :=
  gdb.Bots.filter (fun bot => bot.PID == gdb.PID)

/-- Method `TheirBots` returns the GDBBots NOT owned by us (`bot.PID != gdb.PID`). -/
def GameDatabase.TheirBots (gdb : GameDatabase) : List GDBBot :=
  gdb.Bots.filter (fun bot => bot.PID != gdb.PID)

/-- The identity list of a store: one (PID, BID) pair per stored bot, in
iteration order. -/
def keys (bots : List GDBBot) : List (Int × Int) :=
  bots.map (fun x => (x.PID, x.BID))

/-- Applying a finite sequence of upsert events, in order, to an initially
empty store. -/
def applyEvents (es : List BotMsg) : List GDBBot :=
  es.foldl insertUpdateBots []

/-- The last event in `es` carrying identity (pid, bid), if any. -/
def lastFor (pid bid : Int) (es : List BotMsg) : Option BotMsg :=
  es.foldl (fun acc e => if e.PID == pid && e.BID == bid then some e else acc) none

/-! ## Strategy variant A — `00-reckless-abandon.go` (`runStrategy`) -/

namespace RecklessAbandon

/-- The lowest-health scan of variant A's tick: `lowHealth` starts at
`MaxHealth` and drops to any smaller health seen among the opposing bots. -/
def lowHealth (theirBots : List GDBBot) : Int :=
  theirBots.foldl (fun lh bot => if bot.Health < lh then bot.Health else lh) MaxHealth

/-- The tie set of variant A's tick: all opposing bots at the scanned
minimum health. -/
def weakBots (theirBots : List GDBBot) : List GDBBot :=
  theirBots.filter (fun bot => bot.Health == lowHealth theirBots)

/-- Squared planar Euclidean distance. The Go code compares
`math.Sqrt`-valued distances of integer points; `Sqrt` is strictly monotone
on the non-negative reals, so every comparison of two such distances has the
same outcome as the comparison of the squared distances, which are exact
integers. All the embedded code does with distances is compare them. -/
def dist2 (xa ya xb yb : Int) : Int :=
  (xb - xa) ^ 2 + (yb - ya) ^ 2

/-- The per-tick target selection of variant A (the body of the steady-state
loop, lines 145–203): scan the minimum health, collect the tie set, and when
the tie set has several members run the closest-to-centroid loop. The
centroid uses Go integer division (truncation toward zero, `Int.tdiv`); the Go
code panics when `myBots` is empty and this branch is reached (division by
zero), where the model yields centroid 0. The inner fold reproduces the
source faithfully, including line 190, which computes `dist` from the current
`closeBot` rather than from the loop variable `bot`. -/
def selectTarget (theirBots myBots : List GDBBot) : Option GDBBot :=
  match weakBots theirBots with
  | [] => none
  | w :: rest =>
      if rest.isEmpty then some w
      else
        let ttlX := myBots.foldl (fun acc bot => acc + bot.X) 0
        let ttlY := myBots.foldl (fun acc bot => acc + bot.Y) 0
        let avgX := Int.tdiv ttlX myBots.length
        let avgY := Int.tdiv ttlY myBots.length
        let close := (w :: rest).foldl
          (fun st bot =>
            let dist := dist2 avgX avgY st.2.X st.2.Y
            if dist < st.1 then (dist, bot) else st)
          (dist2 avgX avgY w.X w.Y, w)
        some close.2

/-- Whether one iteration of variant A's steady-state loop returns: it does
exactly when the tie set is empty (lines 166–170). -/
def stepExits (gdb : GameDatabase) : Bool :=
  (weakBots gdb.TheirBots).isEmpty

end RecklessAbandon

/-! ## Strategy variant B — `01-danger-noodle.go` (`runStrategy`) -/

namespace DangerNoodle

/-- Whether one iteration of variant B's loop returns. The loop body of
`runStrategy` in `01-danger-noodle.go` (lines 124–171) contains no `return`
statement at all: when the opposing list is empty the lead bot's block is
skipped with `continue` (line 137) and the outer loop keeps running, so no
store state makes the iteration exit. -/
def stepExits (_ : GameDatabase) : Bool :=
  false

end DangerNoodle

/-! ## Strategy variant C — the unnamed "DEATH STAR" variant (`runStrategy`) -/

namespace DeathStar

/-- Whether one iteration of variant C's loop returns: it does when the
opposing list is empty (lines 128–131) and also when the owned list is empty
(lines 142–145). -/
def stepExits (gdb : GameDatabase) : Bool :=
  gdb.TheirBots.isEmpty || gdb.MyBots.isEmpty

end DeathStar

/-! ## The state-processing task — `processMsgs`

The socket layer and JSON decoding are external collaborators; the consumer
is modelled on the decoded outcome of each queued line. The two-phase decode
gives each inbound line one of these shapes:

* `readErr` — the queue item carried a read error (`queueItem.Err != nil`);
* `malformed` — the discriminant-sniffing decode into `Msg` failed;
* `ready r` / `readyBad r` — discriminant `"READY"`, with the typed decode
  succeeding / failing. On failure Go's `json.Unmarshal` leaves whatever it
  populated before the error (the zero value in the worst case) in the local
  `ready` variable, carried here as `r`; the handler body is identical in the
  two cases because the error branch only logs (lines 249–251);
* `bot b` / `botBad b` — likewise for discriminant `"BOT"` (lines 272–279);
* `unknown t` — any other discriminant.
-/

/-- One decoded-or-failed inbound event, as classified by `processMsgs`. -/
inductive InEvent where
  | readErr : InEvent
  | malformed : InEvent
  | ready : ReadyMsg → InEvent
  | readyBad : ReadyMsg → InEvent
  | bot : BotMsg → InEvent
  | botBad : BotMsg → InEvent
  | unknown : String → InEvent
deriving DecidableEq, Repr

/-- State of the `processMsgs` task: the store, the snapshot of the store at
each `go runStrategy()` spawn (in spawn order), and whether the loop has
returned (after which queued events are no longer consumed). -/
structure ProcState where
  gdb : GameDatabase
  spawns : List GameDatabase
  aborted : Bool
deriving DecidableEq, Repr

/-- The state at session start: empty store, zero-valued player identity,
no strategy task spawned. -/
def initState : ProcState :=
  { gdb := { Bots := [], PID := 0 }, spawns := [], aborted := false }

/-- The store commit performed by the READY handler before the spawn: the
player identity is recorded, then every roster bot is inserted in order. -/
def readyCommit (gdb : GameDatabase) (r : ReadyMsg) : GameDatabase :=
  r.Bots.foldl GameDatabase.InsertUpdateBot { gdb with PID := r.PID }

/-- The READY handler (lines 244–266): record the player identity, insert
every roster bot in order, then spawn the strategy task. The snapshot pushed
onto `spawns` is the store exactly as the spawned task first sees it. -/
def handleReady (s : ProcState) (r : ReadyMsg) : ProcState :=
  { s with gdb := readyCommit s.gdb r, spawns := s.spawns ++ [readyCommit s.gdb r] }

/-- One iteration of the `processMsgs` loop on one queued event. A read
error and an unknown discriminant are logged and skipped (`continue`); a
sniff-decode failure executes `return` (line 237), ending the loop; a READY
or BOT event runs its handler whether or not its typed decode succeeded,
because the decode-error branches only log. -/
def procStep (s : ProcState) (e : InEvent) : ProcState :=
  if s.aborted then s
  else
    match e with
    | .readErr => s
    | .malformed => { s with aborted := true }
    | .ready r => handleReady s r
    | .readyBad r => handleReady s r
    | .bot b => { s with gdb := s.gdb.InsertUpdateBot b }
    | .botBad b => { s with gdb := s.gdb.InsertUpdateBot b }
    | .unknown _ => s

/-- Running the `processMsgs` task over a whole queued event sequence. -/
def processEvents (es : List InEvent) : ProcState :=
  es.foldl procStep initState

/-- Whether an event carries the `"READY"` discriminant (with either decode
outcome). -/
def InEvent.isReadyLike : InEvent → Bool
  | .ready _ => true
  | .readyBad _ => true
  | _ => false

/-- The query predicate for one identity: `x.PID == pid && x.BID == bid`. -/
def keyPred (pid bid : Int) (x : GDBBot) : Bool :=
  x.PID == pid && x.BID == bid

namespace RecklessAbandon

/-- What the specification prescribes for variant A's tie-break, written from
the spec's words for comparison with `selectTarget`: among the tie set,
choose the member nearest to the centroid of owned-unit positions,
first-minimum-wins on further ties. It differs from `selectTarget` only in
computing each candidate's own distance inside the loop. -/
def specSelectTarget (theirBots myBots : List GDBBot) : Option GDBBot :=
  match weakBots theirBots with
  | [] => none
  | w :: rest =>
      if rest.isEmpty then some w
      else
        let ttlX := myBots.foldl (fun acc bot => acc + bot.X) 0
        let ttlY := myBots.foldl (fun acc bot => acc + bot.Y) 0
        let avgX := Int.tdiv ttlX myBots.length
        let avgY := Int.tdiv ttlY myBots.length
        let close := (w :: rest).foldl
          (fun st bot =>
            let dist := dist2 avgX avgY bot.X bot.Y
            if dist < st.1 then (dist, bot) else st)
          (dist2 avgX avgY w.X w.Y, w)
        some close.2

end RecklessAbandon

/-! ## Helper lemmas about the store operations -/

theorem matchKey_iff {x : GDBBot} {b : BotMsg} :
    matchKey x b = true ↔ x.BID = b.BID ∧ x.PID = b.PID := by
  simp [matchKey]

theorem removeFirst_sublist (bots : List GDBBot) (b : BotMsg) :
    (removeFirst bots b).Sublist bots := by
  induction bots with
  | nil => simp [removeFirst]
  | cons x xs ih =>
      simp only [removeFirst]
      cases hm : matchKey x b
      · simp only [hm, Bool.false_eq_true, if_false]
        exact List.Sublist.cons₂ x ih
      · simp only [hm, if_true]
        exact List.sublist_cons_self x xs

theorem updateFirst_eq_none {bots : List GDBBot} {b : BotMsg} :
    updateFirst bots b = none ↔ ∀ x ∈ bots, matchKey x b = false := by
  induction bots with
  | nil => simp [updateFirst]
  | cons x xs ih =>
      by_cases hm : matchKey x b
      · simp [updateFirst, hm]
      · simp [updateFirst, hm, ih]

theorem updateFirst_eq_some {bots : List GDBBot} {b : BotMsg} {l : List GDBBot}
    (h : updateFirst bots b = some l) :
    ∃ p x q, bots = p ++ x :: q ∧ (∀ y ∈ p, matchKey y b = false) ∧
      matchKey x b = true ∧
      l = p ++ { x with X := b.X, Y := b.Y, Health := b.Health } :: q := by
  induction bots generalizing l with
  | nil => simp [updateFirst] at h
  | cons x xs ih =>
      cases hm : matchKey x b
      · simp only [updateFirst, hm, Bool.false_eq_true, if_false] at h
        cases hul : updateFirst xs b with
        | none => rw [hul] at h; simp at h
        | some l' =>
            rw [hul] at h
            simp only [Option.map_some', Option.some.injEq] at h
            obtain ⟨p, y, q, hbots, hp, hy, hl⟩ := ih hul
            refine ⟨x :: p, y, q, by simp [hbots], ?_, hy, by simp [← h, hl]⟩
            intro z hz
            rcases List.mem_cons.mp hz with rfl | hz'
            · exact hm
            · exact hp z hz'
      · simp only [updateFirst, hm, if_true, Option.some.injEq] at h
        exact ⟨[], x, xs, rfl, by simp, hm, h.symm⟩

theorem insertUpdateBots_of_nonpos {bots : List GDBBot} {b : BotMsg}
    (h : b.Health ≤ 0) : insertUpdateBots bots b = removeFirst bots b := by
  simp [insertUpdateBots, h]

theorem insertUpdateBots_of_pos_none {bots : List GDBBot} {b : BotMsg}
    (h : 0 < b.Health) (hu : updateFirst bots b = none) :
    insertUpdateBots bots b = bots ++ [mkGDBBot b] := by
  simp [insertUpdateBots, not_le.mpr h, hu]

theorem insertUpdateBots_of_pos_some {bots l : List GDBBot} {b : BotMsg}
    (h : 0 < b.Health) (hu : updateFirst bots b = some l) :
    insertUpdateBots bots b = l := by
  simp [insertUpdateBots, not_le.mpr h, hu]

theorem keys_nodup_insertUpdate (b : BotMsg) {bots : List GDBBot}
    (h : (keys bots).Nodup) : (keys (insertUpdateBots bots b)).Nodup := by
  by_cases hh : b.Health ≤ 0
  · rw [insertUpdateBots_of_nonpos hh]
    exact ((removeFirst_sublist bots b).map _).nodup h
  · have hpos : 0 < b.Health := not_le.mp hh
    cases hu : updateFirst bots b with
    | none =>
        rw [insertUpdateBots_of_pos_none hpos hu]
        rw [updateFirst_eq_none] at hu
        have hmem : (b.PID, b.BID) ∉ keys bots := by
          intro hmem
          obtain ⟨x, hx, hkey⟩ := List.mem_map.mp hmem
          have hfalse := hu x hx
          have h1 : x.PID = b.PID := congrArg Prod.fst hkey
          have h2 : x.BID = b.BID := congrArg Prod.snd hkey
          rw [matchKey, h1, h2] at hfalse
          simp at hfalse
        simp only [keys, List.map_append, List.map_cons, List.map_nil]
        rw [List.nodup_append]
        exact ⟨h, List.nodup_singleton _, by simpa [keys, mkGDBBot] using hmem⟩
    | some l =>
        rw [insertUpdateBots_of_pos_some hpos hu]
        obtain ⟨p, x, q, hbots, hp, hx, hl⟩ := updateFirst_eq_some hu
        subst hl
        have hkeys : keys (p ++ { x with X := b.X, Y := b.Y, Health := b.Health } :: q) =
            keys (p ++ x :: q) := by
          simp [keys]
        rw [hkeys, ← hbots]
        exact h

theorem health_pos_insertUpdate {bots : List GDBBot} {b : BotMsg}
    (h : ∀ x ∈ bots, 0 < x.Health) :
    ∀ x ∈ insertUpdateBots bots b, 0 < x.Health := by
  intro x hx
  by_cases hh : b.Health ≤ 0
  · rw [insertUpdateBots_of_nonpos hh] at hx
    exact h x ((removeFirst_sublist bots b).subset hx)
  · have hpos : 0 < b.Health := not_le.mp hh
    cases hu : updateFirst bots b with
    | none =>
        rw [insertUpdateBots_of_pos_none hpos hu] at hx
        rcases List.mem_append.mp hx with h1 | h2
        · exact h x h1
        · simp only [List.mem_singleton] at h2
          subst h2
          simpa [mkGDBBot] using hpos
    | some l =>
        rw [insertUpdateBots_of_pos_some hpos hu] at hx
        obtain ⟨p, y, q, hbots, hp, hy, hl⟩ := updateFirst_eq_some hu
        subst hl hbots
        rcases List.mem_append.mp hx with h1 | h2
        · exact h x (by simp [h1])
        · rcases List.mem_cons.mp h2 with rfl | h3
          · simpa using hpos
          · exact h x (by simp [h3])

theorem keyPred_eq_matchKey {b : BotMsg} (x : GDBBot) :
    keyPred b.PID b.BID x = matchKey x b := by
  simp [keyPred, matchKey, Bool.and_comm]

theorem filter_removeFirst_ne {bots : List GDBBot} {b : BotMsg} {pid bid : Int}
    (hne : ¬(b.PID = pid ∧ b.BID = bid)) :
    (removeFirst bots b).filter (keyPred pid bid) = bots.filter (keyPred pid bid) := by
  induction bots with
  | nil => simp [removeFirst]
  | cons x xs ih =>
      simp only [removeFirst]
      cases hm : matchKey x b
      · simp only [Bool.false_eq_true, if_false]
        simp [List.filter_cons, ih]
      · simp only [if_true]
        have hk : keyPred pid bid x = false := by
          rcases matchKey_iff.mp hm with ⟨h1, h2⟩
          by_contra hc
          rw [Bool.not_eq_false] at hc
          simp only [keyPred, Bool.and_eq_true, beq_iff_eq] at hc
          exact hne ⟨by rw [← h2]; exact hc.1, by rw [← h1]; exact hc.2⟩
        simp [List.filter_cons, hk]

theorem filter_matchKey_removeFirst {bots : List GDBBot} {b : BotMsg}
    (hnd : (keys bots).Nodup) :
    (removeFirst bots b).filter (fun x => matchKey x b) = [] := by
  induction bots with
  | nil => simp [removeFirst]
  | cons x xs ih =>
      simp only [keys, List.map_cons, List.nodup_cons] at hnd
      obtain ⟨hnx, hnxs⟩ := hnd
      simp only [removeFirst]
      cases hm : matchKey x b
      · simp only [Bool.false_eq_true, if_false, List.filter_cons, hm]
        simpa using ih hnxs
      · simp only [if_true]
        rw [List.filter_eq_nil_iff]
        intro a ha hma
        rcases matchKey_iff.mp hma with ⟨ha1, ha2⟩
        rcases matchKey_iff.mp hm with ⟨hx1, hx2⟩
        apply hnx
        refine List.mem_map.mpr ⟨a, ha, ?_⟩
        simp [ha1, ha2, hx1, hx2]

theorem filter_insertUpdate {bots : List GDBBot} (b : BotMsg) (pid bid : Int)
    (hnd : (keys bots).Nodup) :
    (insertUpdateBots bots b).filter (keyPred pid bid) =
      if b.PID = pid ∧ b.BID = bid then
        (if 0 < b.Health then [mkGDBBot b] else [])
      else bots.filter (keyPred pid bid) := by
  by_cases hid : b.PID = pid ∧ b.BID = bid
  · rw [if_pos hid]
    obtain ⟨hid1, hid2⟩ := hid
    subst hid1 hid2
    by_cases hh : b.Health ≤ 0
    · rw [insertUpdateBots_of_nonpos hh, if_neg (not_lt.mpr hh)]
      rw [List.filter_congr (fun x _ => keyPred_eq_matchKey x)]
      exact filter_matchKey_removeFirst hnd
    · have hpos : 0 < b.Health := not_le.mp hh
      rw [if_pos hpos]
      cases hu : updateFirst bots b with
      | none =>
          rw [insertUpdateBots_of_pos_none hpos hu]
          rw [updateFirst_eq_none] at hu
          rw [List.filter_append]
          have h1 : bots.filter (keyPred b.PID b.BID) = [] := by
            rw [List.filter_eq_nil_iff]
            intro a ha hka
            rw [keyPred_eq_matchKey a, hu a ha] at hka
            cases hka
          have h2 : [mkGDBBot b].filter (keyPred b.PID b.BID) = [mkGDBBot b] := by
            simp [keyPred, mkGDBBot]
          rw [h1, h2, List.nil_append]
      | some l =>
          rw [insertUpdateBots_of_pos_some hpos hu]
          obtain ⟨p, x, q, hbots, hp, hx, hl⟩ := updateFirst_eq_some hu
          subst hl hbots
          rcases matchKey_iff.mp hx with ⟨hx1, hx2⟩
          have h1 : p.filter (keyPred b.PID b.BID) = [] := by
            rw [List.filter_eq_nil_iff]
            intro a ha hka
            rw [keyPred_eq_matchKey a, hp a ha] at hka
            cases hka
          have h2 : q.filter (keyPred b.PID b.BID) = [] := by
            rw [List.filter_eq_nil_iff]
            intro a ha hka
            simp only [keyPred, Bool.and_eq_true, beq_iff_eq] at hka
            have hsub : ((x.PID, x.BID) :: keys q).Sublist (keys (p ++ x :: q)) := by
              simp only [keys, List.map_append, List.map_cons]
              exact List.sublist_append_right _ _
            have hnd2 := hsub.nodup hnd
            have hnotin : (x.PID, x.BID) ∉ keys q := (List.nodup_cons.mp hnd2).1
            exact hnotin (List.mem_map.mpr ⟨a, ha, by simp [hka.1, hka.2, hx1, hx2]⟩)
          have hkx : keyPred b.PID b.BID
              ({ x with X := b.X, Y := b.Y, Health := b.Health } : GDBBot) = true := by
            simp [keyPred, hx1, hx2]
          have hxeq : ({ x with X := b.X, Y := b.Y, Health := b.Health } : GDBBot) =
              mkGDBBot b := by
            cases x
            simp_all [mkGDBBot]
          rw [List.filter_append, List.filter_cons]
          simp only [h1, h2, hkx, if_true, List.nil_append]
          rw [hxeq]
  · rw [if_neg hid]
    by_cases hh : b.Health ≤ 0
    · rw [insertUpdateBots_of_nonpos hh]
      exact filter_removeFirst_ne hid
    · have hpos : 0 < b.Health := not_le.mp hh
      cases hu : updateFirst bots b with
      | none =>
          rw [insertUpdateBots_of_pos_none hpos hu, List.filter_append]
          have h2 : [mkGDBBot b].filter (keyPred pid bid) = [] := by
            rw [List.filter_eq_nil_iff]
            intro a ha hka
            simp only [List.mem_singleton] at ha
            subst ha
            simp only [keyPred, mkGDBBot, Bool.and_eq_true, beq_iff_eq] at hka
            exact hid hka
          rw [h2, List.append_nil]
      | some l =>
          rw [insertUpdateBots_of_pos_some hpos hu]
          obtain ⟨p, x, q, hbots, hp, hx, hl⟩ := updateFirst_eq_some hu
          subst hl hbots
          rcases matchKey_iff.mp hx with ⟨hx1, hx2⟩
          have hk1 : keyPred pid bid
              ({ x with X := b.X, Y := b.Y, Health := b.Health } : GDBBot) = false := by
            by_contra hc
            rw [Bool.not_eq_false] at hc
            simp only [keyPred, Bool.and_eq_true, beq_iff_eq] at hc
            exact hid ⟨by rw [← hx2]; exact hc.1, by rw [← hx1]; exact hc.2⟩
          have hk2 : keyPred pid bid x = false := by
            by_contra hc
            rw [Bool.not_eq_false] at hc
            simp only [keyPred, Bool.and_eq_true, beq_iff_eq] at hc
            exact hid ⟨by rw [← hx2]; exact hc.1, by rw [← hx1]; exact hc.2⟩
          rw [List.filter_append, List.filter_append, List.filter_cons, List.filter_cons]
          simp [hk1, hk2]

theorem applyEvents_append (es : List BotMsg) (e : BotMsg) :
    applyEvents (es ++ [e]) = insertUpdateBots (applyEvents es) e := by
  simp [applyEvents, List.foldl_append]

theorem lastFor_append (pid bid : Int) (es : List BotMsg) (e : BotMsg) :
    lastFor pid bid (es ++ [e]) =
      if e.PID == pid && e.BID == bid then some e else lastFor pid bid es := by
  simp [lastFor, List.foldl_append]

theorem keys_nodup_applyEvents (es : List BotMsg) : (keys (applyEvents es)).Nodup := by
  suffices h : ∀ (es : List BotMsg) (bots : List GDBBot), (keys bots).Nodup →
      (keys (es.foldl insertUpdateBots bots)).Nodup by
    exact h es [] (by simp [keys])
  intro es
  induction es with
  | nil => intro bots h; simpa using h
  | cons e es ih =>
      intro bots h
      exact ih (insertUpdateBots bots e) (keys_nodup_insertUpdate e h)

theorem foldl_insertUpdate_PID (bs : List BotMsg) (gdb : GameDatabase) :
    (bs.foldl GameDatabase.InsertUpdateBot gdb).PID = gdb.PID := by
  induction bs generalizing gdb with
  | nil => rfl
  | cons b bs ih => exact ih (gdb.InsertUpdateBot b)

theorem readyCommit_PID (gdb : GameDatabase) (r : ReadyMsg) :
    (readyCommit gdb r).PID = r.PID :=
  foldl_insertUpdate_PID r.Bots { gdb with PID := r.PID }

theorem procSteps_quiet (es : List InEvent) (s : ProcState)
    (hq : ∀ e ∈ es, e.isReadyLike = false ∧ e ≠ InEvent.malformed)
    (ha : s.aborted = false) :
    ∃ g, es.foldl procStep s = { gdb := g, spawns := s.spawns, aborted := false } := by
  induction es generalizing s with
  | nil =>
      refine ⟨s.gdb, ?_⟩
      cases s
      simp_all
  | cons e es ih =>
      have he := hq e (List.mem_cons_self e es)
      have hrest : ∀ e ∈ es, e.isReadyLike = false ∧ e ≠ InEvent.malformed :=
        fun e' he' => hq e' (List.mem_cons_of_mem e he')
      rw [List.foldl_cons]
      cases e with
      | readErr =>
          have hstep : procStep s InEvent.readErr = s := by
            simp [procStep]
          rw [hstep]
          exact ih s hrest ha
      | malformed => exact absurd rfl he.2
      | ready r => simp [InEvent.isReadyLike] at he
      | readyBad r => simp [InEvent.isReadyLike] at he
      | bot b =>
          have hstep : procStep s (InEvent.bot b) =
              { s with gdb := s.gdb.InsertUpdateBot b } := by
            simp [procStep, ha]
          rw [hstep]
          simpa using ih { s with gdb := s.gdb.InsertUpdateBot b } hrest ha
      | botBad b =>
          have hstep : procStep s (InEvent.botBad b) =
              { s with gdb := s.gdb.InsertUpdateBot b } := by
            simp [procStep, ha]
          rw [hstep]
          simpa using ih { s with gdb := s.gdb.InsertUpdateBot b } hrest ha
      | unknown t =>
          have hstep : procStep s (InEvent.unknown t) = s := by
            simp [procStep]
          rw [hstep]
          exact ih s hrest ha

theorem procSteps_spawns_const (es : List InEvent) (s : ProcState)
    (hq : ∀ e ∈ es, e.isReadyLike = false) :
    (es.foldl procStep s).spawns = s.spawns := by
  induction es generalizing s with
  | nil => rfl
  | cons e es ih =>
      have he := hq e (List.mem_cons_self e es)
      have hrest : ∀ e ∈ es, e.isReadyLike = false :=
        fun e' he' => hq e' (List.mem_cons_of_mem e he')
      have hstep : (procStep s e).spawns = s.spawns := by
        cases e <;> simp_all [procStep, InEvent.isReadyLike] <;>
          by_cases ha : s.aborted <;> simp [ha]
      rw [List.foldl_cons, ih (procStep s e) hrest, hstep]

/-! ## The claims -/

/-- C1: for every finite sequence of upsert events applied in order via
`InsertUpdateBot` to an initially empty store, the store's entries for each
identity (PID, BID) are exactly what the last event for that identity
prescribes: the singleton carrying that event's (X, Y, Health) when its
Health was positive, and no entry when its Health was ≤ 0 or when no event
carried the identity. -/
theorem c1_store_lastWriteWins (es : List BotMsg) (pid bid : Int) :
    (applyEvents es).filter (keyPred pid bid) =
      (match lastFor pid bid es with
       | none => []
       | some e => if 0 < e.Health then [mkGDBBot e] else []) := by
  induction es using List.reverseRecOn with
  | nil => simp [applyEvents, lastFor]
  | append_singleton es e ih =>
      rw [applyEvents_append, lastFor_append,
        filter_insertUpdate e pid bid (keys_nodup_applyEvents es)]
      by_cases hid : e.PID = pid ∧ e.BID = bid
      · have hb : (e.PID == pid && e.BID == bid) = true := by
          simp [hid.1, hid.2]
        rw [if_pos hid, hb]
        simp
      · have hb : (e.PID == pid && e.BID == bid) = false := by
          by_contra hc
          rw [Bool.not_eq_false, Bool.and_eq_true, beq_iff_eq, beq_iff_eq] at hc
          exact hid hc
        rw [if_neg hid, hb, ih]
        simp

/-- C8: after every sequence of `InsertUpdateBot` operations starting from an
empty store, every unit present in the store has Health > 0; a unit with
health ≤ 0 is never retained. -/
theorem c8_health_invariant (es : List BotMsg) :
    ∀ x ∈ applyEvents es, 0 < x.Health := by
  suffices h : ∀ (es : List BotMsg) (bots : List GDBBot),
      (∀ x ∈ bots, 0 < x.Health) →
      ∀ x ∈ es.foldl insertUpdateBots bots, 0 < x.Health by
    exact h es [] (by simp)
  intro es
  induction es with
  | nil => intro bots h x hx; exact h x hx
  | cons e es ih =>
      intro bots h
      exact ih (insertUpdateBots bots e) (health_pos_insertUpdate h)

/-- Witness for C8: the store produced by one positive-health upsert contains
a unit, and its health is positive. -/
theorem c8_health_invariant_witness :
    0 < (mkGDBBot { PID := 2, BID := 1, X := 3, Y := 4, Health := 5 }).Health :=
  c8_health_invariant [{ PID := 2, BID := 1, X := 3, Y := 4, Health := 5 }]
    (mkGDBBot { PID := 2, BID := 1, X := 3, Y := 4, Health := 5 }) (by decide)

/-- C9: `InsertUpdateBot` preserves identity uniqueness: when no two units
share a (PID, BID) pair before the call, none do after it, for every input
message. -/
theorem c9_identity_unique (gdb : GameDatabase) (b : BotMsg)
    (h : (keys gdb.Bots).Nodup) :
    (keys (gdb.InsertUpdateBot b).Bots).Nodup :=
  keys_nodup_insertUpdate b h

/-- Witness for C9 at a concrete store and message. -/
theorem c9_identity_unique_witness :
    (keys (GameDatabase.InsertUpdateBot
        { Bots := [{ BID := 1, PID := 1, X := 0, Y := 0, Health := 3 }], PID := 1 }
        { PID := 2, BID := 1, X := 5, Y := 6, Health := 7 }).Bots).Nodup :=
  c9_identity_unique _ _ (by decide)

/-- C10: when `InsertUpdateBot` runs with Health > 0 for an identity already
present, the store decomposes around the first matching unit, only that
unit's X, Y and Health fields change, every other unit and the relative
iteration order are untouched, and the store's player identity field is
unchanged. -/
theorem c10_update_frame (gdb : GameDatabase) (b : BotMsg)
    (hpos : 0 < b.Health) (hmem : ∃ x ∈ gdb.Bots, matchKey x b = true) :
    (gdb.InsertUpdateBot b).PID = gdb.PID ∧
    ∃ p x q, gdb.Bots = p ++ x :: q ∧
      (∀ y ∈ p, matchKey y b = false) ∧ matchKey x b = true ∧
      (gdb.InsertUpdateBot b).Bots =
        p ++ { x with X := b.X, Y := b.Y, Health := b.Health } :: q := by
  cases hu : updateFirst gdb.Bots b with
  | none =>
      rw [updateFirst_eq_none] at hu
      obtain ⟨x, hx, hm⟩ := hmem
      rw [hu x hx] at hm
      cases hm
  | some l =>
      obtain ⟨p, x, q, h1, h2, h3, h4⟩ := updateFirst_eq_some hu
      refine ⟨rfl, p, x, q, h1, h2, h3, ?_⟩
      show insertUpdateBots gdb.Bots b = _
      rw [insertUpdateBots_of_pos_some hpos hu, h4]

/-- Witness for C10 at a concrete store and message. -/
theorem c10_update_frame_witness :
    (GameDatabase.InsertUpdateBot
        { Bots := [{ BID := 1, PID := 2, X := 0, Y := 0, Health := 5 }], PID := 7 }
        { PID := 2, BID := 1, X := 3, Y := 4, Health := 9 }).PID =
      ({ Bots := [{ BID := 1, PID := 2, X := 0, Y := 0, Health := 5 }],
          PID := 7 } : GameDatabase).PID ∧
    ∃ p x q,
      ({ Bots := [{ BID := 1, PID := 2, X := 0, Y := 0, Health := 5 }],
          PID := 7 } : GameDatabase).Bots = p ++ x :: q ∧
      (∀ y ∈ p, matchKey y { PID := 2, BID := 1, X := 3, Y := 4, Health := 9 } = false) ∧
      matchKey x { PID := 2, BID := 1, X := 3, Y := 4, Health := 9 } = true ∧
      (GameDatabase.InsertUpdateBot
          { Bots := [{ BID := 1, PID := 2, X := 0, Y := 0, Health := 5 }], PID := 7 }
          { PID := 2, BID := 1, X := 3, Y := 4, Health := 9 }).Bots =
        p ++ { x with X := 3, Y := 4, Health := 9 } :: q :=
  c10_update_frame _ _ (by decide) (by decide)

/-- C6: for every store state and player identity, `MyBots` and `TheirBots`
partition the stored units exactly: together they are a permutation of the
store, no unit is in both lists, and every stored unit is in one of them. -/
theorem c6_partition (gdb : GameDatabase) :
    (gdb.MyBots ++ gdb.TheirBots).Perm gdb.Bots ∧
      (∀ x, x ∈ gdb.MyBots → x ∉ gdb.TheirBots) ∧
      (∀ x ∈ gdb.Bots, x ∈ gdb.MyBots ∨ x ∈ gdb.TheirBots) := by
  refine ⟨?_, ?_, ?_⟩
  · have h := List.filter_append_perm (fun bot => bot.PID == gdb.PID) gdb.Bots
    simpa [GameDatabase.MyBots, GameDatabase.TheirBots, bne] using h
  · intro x hx hx'
    rw [GameDatabase.MyBots, List.mem_filter] at hx
    rw [GameDatabase.TheirBots, List.mem_filter] at hx'
    rw [bne, hx.2] at hx'
    simp at hx'
  · intro x hx
    by_cases h : x.PID = gdb.PID
    · exact Or.inl (List.mem_filter.mpr ⟨hx, by simp [h]⟩)
    · exact Or.inr (List.mem_filter.mpr ⟨hx, by simp [bne, h]⟩)

/-- Witness for C6 at a concrete two-unit store. -/
theorem c6_partition_witness :
    (GameDatabase.MyBots { Bots := [{ BID := 1, PID := 1, X := 0, Y := 0, Health := 5 },
        { BID := 2, PID := 2, X := 3, Y := 3, Health := 4 }], PID := 1 } ++
      GameDatabase.TheirBots { Bots := [{ BID := 1, PID := 1, X := 0, Y := 0, Health := 5 },
        { BID := 2, PID := 2, X := 3, Y := 3, Health := 4 }], PID := 1 }).Perm
      ({ Bots := [{ BID := 1, PID := 1, X := 0, Y := 0, Health := 5 },
        { BID := 2, PID := 2, X := 3, Y := 3, Health := 4 }], PID := 1 } : GameDatabase).Bots ∧
    (∀ x, x ∈ GameDatabase.MyBots { Bots := [{ BID := 1, PID := 1, X := 0, Y := 0, Health := 5 },
        { BID := 2, PID := 2, X := 3, Y := 3, Health := 4 }], PID := 1 } →
      x ∉ GameDatabase.TheirBots { Bots := [{ BID := 1, PID := 1, X := 0, Y := 0, Health := 5 },
        { BID := 2, PID := 2, X := 3, Y := 3, Health := 4 }], PID := 1 }) ∧
    (∀ x ∈ ({ Bots := [{ BID := 1, PID := 1, X := 0, Y := 0, Health := 5 },
        { BID := 2, PID := 2, X := 3, Y := 3, Health := 4 }], PID := 1 } : GameDatabase).Bots,
      x ∈ GameDatabase.MyBots { Bots := [{ BID := 1, PID := 1, X := 0, Y := 0, Health := 5 },
        { BID := 2, PID := 2, X := 3, Y := 3, Health := 4 }], PID := 1 } ∨
      x ∈ GameDatabase.TheirBots { Bots := [{ BID := 1, PID := 1, X := 0, Y := 0, Health := 5 },
        { BID := 2, PID := 2, X := 3, Y := 3, Health := 4 }], PID := 1 }) :=
  c6_partition _

/-- C2: evaluation of variant A's target selection at the spec's own example
(healths [3, 5, 3, 3], owned centroid (0, 0), squared distances to centroid
[100, 1, 16, 16]): the code selects the tie-set member at distance 10 — the
first in iteration order — not the member at distance 4 that the claim
prescribes. Line 190 recomputes the distance of the current `closeBot`
instead of the loop candidate `bot`, so the closest-to-centroid scan never
switches candidates; `specSelectTarget`, written from the spec's words,
returns the prescribed member. -/
theorem c2_tieBreak_eval :
    RecklessAbandon.selectTarget
        [{ BID := 1, PID := 2, X := 10, Y := 0, Health := 3 },
         { BID := 2, PID := 2, X := 1, Y := 0, Health := 5 },
         { BID := 3, PID := 2, X := 4, Y := 0, Health := 3 },
         { BID := 4, PID := 2, X := 0, Y := 4, Health := 3 }]
        [{ BID := 1, PID := 1, X := 0, Y := 0, Health := 12 },
         { BID := 2, PID := 1, X := 0, Y := 0, Health := 12 }] =
      some { BID := 1, PID := 2, X := 10, Y := 0, Health := 3 } ∧
    RecklessAbandon.specSelectTarget
        [{ BID := 1, PID := 2, X := 10, Y := 0, Health := 3 },
         { BID := 2, PID := 2, X := 1, Y := 0, Health := 5 },
         { BID := 3, PID := 2, X := 4, Y := 0, Health := 3 },
         { BID := 4, PID := 2, X := 0, Y := 4, Health := 3 }]
        [{ BID := 1, PID := 1, X := 0, Y := 0, Health := 12 },
         { BID := 2, PID := 1, X := 0, Y := 0, Health := 12 }] =
      some { BID := 3, PID := 2, X := 4, Y := 0, Health := 3 } := by
  constructor <;> decide

/-- C3 counterexample: with an empty store, one iteration of variant B's
`runStrategy` loop observes zero opposing units yet does not return,
refuting the claim that every variant's loop returns on observing zero
opposing units. -/
theorem c3_uniformExit_counterexample :
    ({ Bots := [], PID := 0 } : GameDatabase).TheirBots = [] ∧
      DangerNoodle.stepExits { Bots := [], PID := 0 } = false :=
  ⟨rfl, rfl⟩

/-- C3 amended: variants A and C return on the first iteration that observes
zero opposing units (variant C also returns when it owns zero units), but
variant B's loop body has no return at all, so the terminal condition is not
uniform across the three policies. -/
theorem c3_uniformExit_amended (gdb : GameDatabase) :
    (gdb.TheirBots = [] → RecklessAbandon.stepExits gdb = true) ∧
      (gdb.TheirBots = [] → DeathStar.stepExits gdb = true) ∧
      DangerNoodle.stepExits gdb = false := by
  refine ⟨?_, ?_, rfl⟩
  · intro h
    simp [RecklessAbandon.stepExits, RecklessAbandon.weakBots, h]
  · intro h
    simp [DeathStar.stepExits, h]

/-- Witness for the amended C3 at the empty store. -/
theorem c3_uniformExit_amended_witness :
    RecklessAbandon.stepExits { Bots := [], PID := 0 } = true ∧
      DeathStar.stepExits { Bots := [], PID := 0 } = true ∧
      DangerNoodle.stepExits { Bots := [], PID := 0 } = false :=
  ⟨(c3_uniformExit_amended _).1 rfl, (c3_uniformExit_amended _).2.1 rfl,
    (c3_uniformExit_amended _).2.2⟩

/-- C4: a sniff-decode failure executes `return` in `processMsgs` (line 237
of `00-reckless-abandon.go`, and identically in the other two variants),
terminating the state-processing loop: a BOT event queued after the
malformed line is never consumed and the store stays empty, contradicting
the claim that the consumer discards the single event and continues. -/
theorem c4_malformed_terminates_eval :
    processEvents [InEvent.malformed,
        InEvent.bot { PID := 2, BID := 1, X := 5, Y := 5, Health := 7 }] =
      { gdb := { Bots := [], PID := 0 }, spawns := [], aborted := true } := by
  decide

/-- C5: a BOT event whose typed decode fails is not skipped: the error branch
only logs (lines 274–276) and the handler falls through to `InsertUpdateBot`
with whatever the failed unmarshal left in the local variable — the zero
value in the worst case, whose Health = 0 removes any stored unit with
identity (PID 0, BID 0). The store is not left exactly as it was. -/
theorem c5_botDecodeFailure_mutates_eval :
    procStep
        { gdb := { Bots := [{ BID := 0, PID := 0, X := 1, Y := 1, Health := 5 }],
                   PID := 7 },
          spawns := [], aborted := false }
        (InEvent.botBad { PID := 0, BID := 0, X := 0, Y := 0, Health := 0 }) =
      { gdb := { Bots := [], PID := 7 }, spawns := [], aborted := false } := by
  decide

/-- C7 counterexample: a session whose event sequence carries two well-formed
session-ready messages spawns the Strategy Engine task twice — nothing in
`processMsgs` guards against a second READY — refuting the claim that the
task is spawned exactly once for every sequence of inbound events. -/
theorem c7_spawnOnce_counterexample :
    (processEvents [InEvent.ready { PID := 1, Bots := [] },
        InEvent.ready { PID := 1, Bots := [] }]).spawns.length = 2 := by
  decide

/-- C7 amended: provided the inbound sequence contains exactly one
READY-discriminant event and no sniff-failure precedes it, the Strategy
Engine task is spawned exactly once, and the spawn happens only after the
identity and the entire roster are committed: the unique spawn-time snapshot
is the prior store with PID set to the ready message's PID and the roster
applied, so the spawned engine never observes units without the identity or
the identity without the roster. -/
theorem c7_spawnOnce_amended (pre post : List InEvent) (r : ReadyMsg)
    (hpre : ∀ e ∈ pre, e.isReadyLike = false ∧ e ≠ InEvent.malformed)
    (hpost : ∀ e ∈ post, e.isReadyLike = false) :
    (processEvents (pre ++ InEvent.ready r :: post)).spawns =
      [readyCommit (processEvents pre).gdb r] ∧
    (readyCommit (processEvents pre).gdb r).PID = r.PID := by
  obtain ⟨g, hg⟩ := procSteps_quiet pre initState hpre rfl
  have hgdb : (processEvents pre).gdb = g := by
    rw [processEvents, hg]
  constructor
  · rw [processEvents, List.foldl_append, List.foldl_cons]
    have h1 : pre.foldl procStep initState =
        { gdb := g, spawns := [], aborted := false } := by
      rw [hg]
      rfl
    have h2 : procStep { gdb := g, spawns := [], aborted := false }
        (InEvent.ready r) =
        { gdb := readyCommit g r, spawns := [readyCommit g r],
          aborted := false } := by
      simp [procStep, handleReady]
    rw [h1, h2, procSteps_spawns_const post _ hpost, hgdb]
  · exact readyCommit_PID _ r

/-- Witness for the amended C7: the one-event session consisting of a single
well-formed READY produces exactly one spawn. -/
theorem c7_spawnOnce_amended_witness :
    (processEvents ([] ++ InEvent.ready { PID := 1, Bots := [] } :: [])).spawns =
      [readyCommit (processEvents []).gdb { PID := 1, Bots := [] }] ∧
    (readyCommit (processEvents []).gdb { PID := 1, Bots := [] }).PID = (1 : Int) :=
  c7_spawnOnce_amended [] [] { PID := 1, Bots := [] } (by simp) (by simp)

end Scrappers
